import Mathlib

/-!
Verification of the DecimalX decimal-arithmetic library (`src/index.ts`).

The library represents a decimal number as a `bigint` unscaled value together
with a `bigint` scale (number of fractional digits).  We embed `bigint` as
`Int`, JS strings as `List Char` (wrapped in `String` at the interface), and a
thrown exception as `none` / a missing `Option` result.  The JS string
primitives used by the source (`split`, `padStart`, `slice`, `BigInt(...)`,
`BigInt.prototype.toString`) are embedded as executable Lean functions with the
exact semantics the source relies on.
-/

namespace DecimalX

/-- Structure `DecimalNumber` of `src/index.ts`: `val` is the number with the
decimal point removed (a `bigint`, embedded as `Int`), `scale` is the number of
decimal places (also a `bigint` in the source, hence `Int` here; the
constructor performs no validation, so negative scales are representable). -/
structure DecimalNumber where
  val : Int
  scale : Int
deriving DecidableEq, Repr

/-- Embedding of the `DecimalNumber` constructor (src/index.ts lines 6–9).
The constructor body is two plain field assignments; it performs no check of
any kind, so it is a total function. -/
def decimalNumberNew (val scale : Int) : DecimalNumber :=
  { val := val, scale := scale }

/-- Helper `abs` of src/index.ts: `(n) => (n === -0n || n < 0n ? -n : n)`.
For `bigint`, `-0n` is the same value as `0n`, so the first disjunct is
`n = 0`. -/
def bigintAbs (n : Int) : Int :=
  if n = 0 ∨ n < 0 then -n else n

/-- The ten decimal digit characters. -/
def digitChars : List Char :=
  ['0', '1', '2', '3', '4', '5', '6', '7', '8', '9']

/-- Whether a character is a decimal digit. -/
def isDigit (c : Char) : Bool :=
  decide (c ∈ digitChars)

/-- Numeric value of a decimal digit character (`0` for anything else). -/
def digVal (c : Char) : Nat :=
  match c with
  | '1' => 1
  | '2' => 2
  | '3' => 3
  | '4' => 4
  | '5' => 5
  | '6' => 6
  | '7' => 7
  | '8' => 8
  | '9' => 9
  | _ => 0

/-- Value of a decimal digit string, most significant digit first.  This is
the value `BigInt(s)` assigns to a plain digit string `s`. -/
def digitsToNat : List Char → Nat
  | [] => 0
  | c :: r => digVal c * 10 ^ r.length + digitsToNat r

/-- Embedding of the host `BigInt(string)` conversion, restricted to the
fragment the library exercises: an optional leading minus sign followed by
decimal digits, with the empty string mapping to `0` and everything else
throwing (`none`).  The host primitive additionally trims whitespace and
accepts `+`/hex/octal/binary prefixes; no input reached by the claims uses
those forms. -/
def jsBigInt (l : List Char) : Option Int :=
  match l with
  | [] => some 0
  | c :: rest =>
    if c = '-' then
      if rest ≠ [] ∧ rest.all isDigit then some (-(digitsToNat rest : Int)) else none
    else
      if (c :: rest).all isDigit then some ((digitsToNat (c :: rest) : Int)) else none

/-- Embedding of JS `String.prototype.split` with separator `"."`: splits on
every occurrence of `'.'`, keeping empty pieces, and returns `[s]` when no
separator occurs (in particular `[[]]` for the empty string). -/
def splitDot : List Char → List (List Char)
  | [] => [[]]
  | c :: rest =>
    match splitDot rest with
    | [] => [[]]
    | h :: t => if c = '.' then [] :: h :: t else (c :: h) :: t

/-- Function `toDecimalNumber` of `src/index.ts` on string input (the `number`
overload first renders its argument to a string and proceeds identically).
The source splits on `"."`, throws unless the split has exactly two pieces,
and builds `new DecimalNumber(BigInt(intPart ++ fracPart), fracPart.length)`;
a throw (from the length check or from `BigInt`) is embedded as `none`. -/
def toDecimalNumber (arg : String) : Option DecimalNumber :=
  match splitDot arg.toList with
  | [a, b] => (jsBigInt (a ++ b)).map fun v => { val := v, scale := (b.length : Int) }
  | _ => none

/-- Decimal digit string of a natural number, least significant digit
produced last — the value of `absVal.toString()` in the source.  Structural
recursion on a fuel argument (any fuel greater than `n` yields the digits of
`n`). -/
def natDigitsAux : Nat → Nat → List Char
  | 0, _ => []
  | f + 1, n =>
    if n < 10 then [Nat.digitChar n]
    else natDigitsAux f (n / 10) ++ [Nat.digitChar (n % 10)]

/-- Decimal digit string of a natural number (`0 ↦ "0"`, no leading zeros). -/
def natDigits (n : Nat) : List Char :=
  natDigitsAux (n + 1) n

/-- Embedding of JS `String.prototype.padStart(target, "0")`: left-pad with
`'0'` until the length is at least `target` (no-op when `target` is already
covered, including every negative `target`). -/
def padStartZeros (s : List Char) (target : Int) : List Char :=
  if (s.length : Int) < target then
    List.replicate (target - (s.length : Int)).toNat '0' ++ s
  else s

/-- Embedding of JS `s.slice(0, e)`: a negative `e` counts from the end of the
string; the result is the prefix up to the resolved index.  (JS resolves a
negative end index to `max (length + e) 0` and a non-negative one to
`min e length`; `-0` is non-negative.) -/
def jsSliceTo (s : List Char) (e : Int) : List Char :=
  let e2 : Int := if e < 0 then max ((s.length : Int) + e) 0 else min e (s.length : Int)
  s.take e2.toNat

/-- Embedding of JS `s.slice(b)`: a negative `b` counts from the end of the
string; the result is the suffix from the resolved index. -/
def jsSliceFrom (s : List Char) (b : Int) : List Char :=
  let b2 : Int := if b < 0 then max ((s.length : Int) + b) 0 else min b (s.length : Int)
  s.drop b2.toNat

/-- Method `DecimalNumber.prototype.toString` of `src/index.ts`: renders
`|val|` as digits, left-pads to `scale + 1` characters, splits into integer
part `strVal.slice(0, -scale) || "0"` and decimal part `strVal.slice(-scale)`,
joins them with `'.'`, and prefixes `'-'` when `val < 0`. -/
def DecimalNumber.toString (d : DecimalNumber) : String :=
  let absVal := bigintAbs d.val
  let strVal := padStartZeros (natDigits absVal.toNat) (d.scale + 1)
  let integerPart := if jsSliceTo strVal (-d.scale) = [] then ['0'] else jsSliceTo strVal (-d.scale)
  let decimalPart := jsSliceFrom strVal (-d.scale)
  let formatted := integerPart ++ '.' :: decimalPart
  if d.val < 0 then String.mk ('-' :: formatted) else String.mk formatted

/-- Function `decimalAdd` of `src/index.ts`: align the operand of smaller
scale to the larger scale by multiplying its value by a power of ten, then add
the values; the result keeps the larger scale.  The exponent
`largeDecimalLength - smallDecimalLength` is never negative (the source's
`10n ** k` would throw otherwise), so `Int.toNat` is exact. -/
def decimalAdd (a b : DecimalNumber) : DecimalNumber :=
  let maxDecimal := if a.scale > b.scale then a else b
  let smallDecimal := if a.scale > b.scale then b else a
  let largeDecimalLength := maxDecimal.scale
  let smallDecimalLength := smallDecimal.scale
  let smallValExtended := smallDecimal.val * 10 ^ (largeDecimalLength - smallDecimalLength).toNat
  { val := maxDecimal.val + smallValExtended, scale := largeDecimalLength }

/-- Function `decimalSubtract` of `src/index.ts`: the operand whose scale is
not the larger one is aligned up by a power of ten, and the values are
subtracted in `a - b` order; the result keeps the larger scale.  Both
exponents are differences `max-scale − operand-scale` and hence never
negative. -/
def decimalSubtract (a b : DecimalNumber) : DecimalNumber :=
  let maxDecimal := if a.scale > b.scale then a else b
  let largeDecimalLength := maxDecimal.scale
  if a.scale = largeDecimalLength then
    let bExtended := b.val * 10 ^ (largeDecimalLength - b.scale).toNat
    { val := a.val - bExtended, scale := largeDecimalLength }
  else
    let aExtended := a.val * 10 ^ (largeDecimalLength - a.scale).toNat
    { val := aExtended - b.val, scale := largeDecimalLength }

/-- Function `decimalMultiply` of `src/index.ts`: multiply the unscaled
values, add the scales. -/
def decimalMultiply (a b : DecimalNumber) : DecimalNumber :=
  { val := a.val * b.val, scale := a.scale + b.scale }

/-- Value equality of two `DecimalNumber`s: they denote the same rational
`val / 10^scale` exactly when their values agree after both are aligned (by
appending zeros) to the common scale `max x.scale y.scale`. -/
def valueEq (x y : DecimalNumber) : Prop :=
  x.val * 10 ^ (max x.scale y.scale - x.scale).toNat
    = y.val * 10 ^ (max x.scale y.scale - y.scale).toNat

/-- The decimal text `[sign]intPart.fracPart`. -/
def dotText (neg : Bool) (ip fp : List Char) : String :=
  String.mk ((if neg then ['-'] else []) ++ ip ++ '.' :: fp)

/-- Canonical form of a decimal text containing a decimal point, in the sense
of the spec: nonempty all-digit integer and fractional parts, no superfluous
leading zero on the integer part, and a sign only when the denoted value is
negative (so never on a zero value). -/
@[reducible] def canonicalParts (neg : Bool) (ip fp : List Char) : Prop :=
  ip ≠ [] ∧ fp ≠ [] ∧ ip.all isDigit = true ∧ fp.all isDigit = true ∧
    (ip.head? = some '0' → ip = ['0']) ∧
    (neg = true → ¬ (ip ++ fp).all (· == '0') = true)

/-! ## Characterizations of the arithmetic operations -/

/-- Closed form of `decimalAdd`: both operands aligned to the common scale
`max a.scale b.scale`, values added. -/
theorem decimalAdd_eq (a b : DecimalNumber) :
    decimalAdd a b =
      { val := a.val * 10 ^ (max a.scale b.scale - a.scale).toNat
                 + b.val * 10 ^ (max a.scale b.scale - b.scale).toNat,
        scale := max a.scale b.scale } := by
  obtain ⟨av, as⟩ := a
  obtain ⟨bv, bs⟩ := b
  by_cases h : as > bs
  · have h1 : max as bs = as := by omega
    simp [decimalAdd, h, h1, DecimalNumber.mk.injEq, Int.sub_self]
  · have h1 : max as bs = bs := by omega
    simp [decimalAdd, h, h1, DecimalNumber.mk.injEq, Int.sub_self, add_comm]

/-- Closed form of `decimalSubtract`: both operands aligned to the common
scale `max a.scale b.scale`, values subtracted in `a - b` order. -/
theorem decimalSubtract_eq (a b : DecimalNumber) :
    decimalSubtract a b =
      { val := a.val * 10 ^ (max a.scale b.scale - a.scale).toNat
                 - b.val * 10 ^ (max a.scale b.scale - b.scale).toNat,
        scale := max a.scale b.scale } := by
  obtain ⟨av, as⟩ := a
  obtain ⟨bv, bs⟩ := b
  by_cases h : as > bs
  · have h1 : max as bs = as := by omega
    simp [decimalSubtract, h, h1, DecimalNumber.mk.injEq, Int.sub_self]
  · by_cases h2 : as = bs
    · subst h2
      simp [decimalSubtract, DecimalNumber.mk.injEq, Int.sub_self]
    · have h1 : max as bs = bs := by omega
      simp [decimalSubtract, h, h2, h1, DecimalNumber.mk.injEq, Int.sub_self]

/-- A string without a `'.'` is returned whole by the split. -/
theorem splitDot_no_dot (l : List Char) (h : ∀ c ∈ l, c ≠ '.') : splitDot l = [l] := by
  induction l with
  | nil => rfl
  | cons c r ih =>
    have hr : ∀ x ∈ r, x ≠ '.' := fun x hx => h x (List.mem_cons_of_mem _ hx)
    have hc : c ≠ '.' := h c (List.mem_cons_self _ _)
    simp [splitDot, ih hr, hc]

/-- The value of a digit character is at most `9` (the default branch gives
`0`). -/
theorem digVal_le_nine (c : Char) : digVal c ≤ 9 := by
  unfold digVal
  split <;> omega

/-- A digit character other than `'0'` has a positive value. -/
theorem digVal_pos (c : Char) (h : isDigit c = true) (h0 : c ≠ '0') : 1 ≤ digVal c := by
  have hm : c ∈ digitChars := by simpa [isDigit] using h
  fin_cases hm <;> simp_all [digVal]

/-- Digit characters are not the decimal point. -/
theorem digit_ne_dot (c : Char) (h : isDigit c = true) : c ≠ '.' := by
  intro he
  subst he
  revert h
  decide

/-- Digit characters are not the minus sign. -/
theorem digit_ne_dash (c : Char) (h : isDigit c = true) : c ≠ '-' := by
  intro he
  subst he
  revert h
  decide

/-- Rendering a digit value below ten gives back the digit character. -/
theorem digitChar_digVal (c : Char) (h : isDigit c = true) : Nat.digitChar (digVal c) = c := by
  have hm : c ∈ digitChars := by simpa [isDigit] using h
  fin_cases hm <;> rfl

/-- A digit string of length `k` denotes a value below `10 ^ k`. -/
theorem digitsToNat_lt (l : List Char) : digitsToNat l < 10 ^ l.length := by
  induction l with
  | nil => simp [digitsToNat]
  | cons c r ih =>
    have hd : digVal c * 10 ^ r.length ≤ 9 * 10 ^ r.length :=
      Nat.mul_le_mul_right _ (digVal_le_nine c)
    simp only [digitsToNat, List.length_cons, pow_succ]
    omega

/-- Appending a digit multiplies the denoted value by ten and adds the
digit. -/
theorem digitsToNat_append_digit (l : List Char) (c : Char) :
    digitsToNat (l ++ [c]) = 10 * digitsToNat l + digVal c := by
  induction l with
  | nil => simp [digitsToNat]
  | cons d r ih =>
    have hlen : (r ++ [c]).length = r.length + 1 := by simp
    calc digitsToNat (d :: r ++ [c])
        = digVal d * 10 ^ (r ++ [c]).length + digitsToNat (r ++ [c]) := rfl
      _ = digVal d * 10 ^ (r.length + 1) + (10 * digitsToNat r + digVal c) := by
          rw [hlen, ih]
      _ = 10 * (digVal d * 10 ^ r.length + digitsToNat r) + digVal c := by ring
      _ = 10 * digitsToNat (d :: r) + digVal c := rfl

/-- A nonempty digit string with a nonzero leading digit denotes a positive
value. -/
theorem digitsToNat_pos (l : List Char) (hne : l ≠ []) (hh : l.head? ≠ some '0')
    (hd : l.all isDigit = true) : 0 < digitsToNat l := by
  match l with
  | c :: r =>
    have hc : isDigit c = true := by
      have := List.all_eq_true.mp hd c (List.mem_cons_self _ _)
      simpa using this
    have h0 : c ≠ '0' := by
      intro he
      exact hh (by simp [he])
    have h1 : 1 ≤ digVal c := digVal_pos c hc h0
    have h2 : 0 < 10 ^ r.length := Nat.pos_pow_of_pos _ (by omega)
    have h3 : 0 < digVal c * 10 ^ r.length := Nat.mul_pos (by omega) h2
    simp only [digitsToNat]
    omega

/-- A digit string with at least one nonzero digit denotes a positive
value. -/
theorem digitsToNat_any_pos (l : List Char) (hd : l.all isDigit = true)
    (h : ¬ l.all (· == '0') = true) : 0 < digitsToNat l := by
  induction l with
  | nil => simp at h
  | cons c r ih =>
    by_cases hc : c = '0'
    · subst hc
      have hr : ¬ r.all (· == '0') = true := by simpa using h
      have hrd : r.all isDigit = true := by
        have := List.all_eq_true.mp hd
        exact List.all_eq_true.mpr fun x hx => this x (List.mem_cons_of_mem _ hx)
      have := ih hrd hr
      simp only [digitsToNat]
      omega
    · have hcd : isDigit c = true := by
        have := List.all_eq_true.mp hd c (List.mem_cons_self _ _)
        simpa using this
      have h1 : 1 ≤ digVal c := digVal_pos c hcd hc
      have h2 : 0 < 10 ^ r.length := Nat.pos_pow_of_pos _ (by omega)
      simp only [digitsToNat]
      have h3 : 0 < digVal c * 10 ^ r.length := Nat.mul_pos (by omega) h2
      omega

/-- Leading zeros do not change the denoted value. -/
theorem digitsToNat_replicate_zero (k : Nat) (r : List Char) :
    digitsToNat (List.replicate k '0' ++ r) = digitsToNat r := by
  induction k with
  | zero => rfl
  | succ n ih =>
    have h0 : digVal '0' = 0 := rfl
    simp [List.replicate_succ, digitsToNat, ih, h0]

/-- Rendering the value of a canonical digit string (nonempty, nonzero
leading digit) gives back the string, for any sufficient fuel. -/
theorem natDigitsAux_inv (m : List Char) (fuel : Nat) (hd : m.all isDigit = true)
    (hne : m ≠ []) (hh : m.head? ≠ some '0') (hf : digitsToNat m < fuel) :
    natDigitsAux fuel (digitsToNat m) = m := by
  induction m using List.reverseRecOn generalizing fuel with
  | nil => exact absurd rfl hne
  | append_singleton ms c ih =>
    have hval : digitsToNat (ms ++ [c]) = 10 * digitsToNat ms + digVal c :=
      digitsToNat_append_digit ms c
    have hcd : isDigit c = true := by
      have := List.all_eq_true.mp hd c (by simp)
      simpa using this
    by_cases hms : ms = []
    · subst hms
      have hv : digitsToNat ([] ++ [c]) = digVal c := by simp [hval, digitsToNat]
      rw [hv] at hf ⊢
      match fuel, hf with
      | f + 1, _ =>
        have hlt : digVal c < 10 := by have := digVal_le_nine c; omega
        simp [natDigitsAux, hlt, digitChar_digVal c hcd]
    · have hmsd : ms.all isDigit = true := by
        have := List.all_eq_true.mp hd
        exact List.all_eq_true.mpr fun x hx => this x (by simp [hx])
      have hhm : ms.head? ≠ some '0' := by
        rwa [List.head?_append_of_ne_nil _ hms] at hh
      have hvpos : 0 < digitsToNat ms := digitsToNat_pos ms hms hhm hmsd
      have hdle : digVal c ≤ 9 := digVal_le_nine c
      rw [hval] at hf ⊢
      match fuel, hf with
      | f + 1, hf =>
        have hge : ¬ (10 * digitsToNat ms + digVal c < 10) := by omega
        have hdiv : (10 * digitsToNat ms + digVal c) / 10 = digitsToNat ms := by omega
        have hmod : (10 * digitsToNat ms + digVal c) % 10 = digVal c := by omega
        have hfm : digitsToNat ms < f := by omega
        simp only [natDigitsAux, if_neg hge, hdiv, hmod,
          ih f hmsd hms hhm hfm, digitChar_digVal c hcd]

/-- Rendering the value of a canonical digit string gives back the string. -/
theorem natDigits_inv (m : List Char) (hd : m.all isDigit = true) (hne : m ≠ [])
    (hh : m.head? ≠ some '0') : natDigits (digitsToNat m) = m :=
  natDigitsAux_inv m _ hd hne hh (Nat.lt_succ_self _)

/-- Dropping the leading zeros leaves a string that does not start with a
zero. -/
theorem dropWhile_zeros_head (l : List Char) :
    (l.dropWhile (· == '0')).head? ≠ some '0' := by
  induction l with
  | nil => simp
  | cons c r ih =>
    by_cases hc : c = '0'
    · subst hc
      simpa [List.dropWhile_cons] using ih
    · simp [List.dropWhile_cons, hc]

/-- The leading-zero prefix of a string is literally a replicate of `'0'`. -/
theorem takeWhile_zeros_replicate (l : List Char) :
    l.takeWhile (· == '0') = List.replicate (l.takeWhile (· == '0')).length '0' := by
  induction l with
  | nil => rfl
  | cons c r ih =>
    by_cases hc : c = '0'
    · subst hc
      have h1 : List.takeWhile (· == '0') ('0' :: r) = '0' :: List.takeWhile (· == '0') r := by
        simp [List.takeWhile_cons]
      rw [h1, List.length_cons, List.replicate_succ]
      exact congrArg (List.cons '0') ih
    · simp [List.takeWhile_cons, hc]

/-- Splitting a dotted text whose two sides are dot-free yields exactly the
two sides. -/
theorem splitDot_mid (a b : List Char) (ha : ∀ c ∈ a, c ≠ '.')
    (hb : ∀ c ∈ b, c ≠ '.') : splitDot (a ++ '.' :: b) = [a, b] := by
  induction a with
  | nil => simp [splitDot, splitDot_no_dot b hb]
  | cons c r ih =>
    have hr : ∀ x ∈ r, x ≠ '.' := fun x hx => ha x (List.mem_cons_of_mem _ hx)
    have hc : c ≠ '.' := ha c (List.mem_cons_self _ _)
    simp [splitDot, ih hr, hc]

/-- The source's `abs` helper on a nonnegative value. -/
theorem bigintAbs_natCast (n : Nat) : bigintAbs (n : Int) = (n : Int) := by
  unfold bigintAbs
  split_ifs with h
  · omega
  · rfl

/-- The source's `abs` helper on the negation of a natural value. -/
theorem bigintAbs_neg_natCast (n : Nat) : bigintAbs (-(n : Int)) = (n : Int) := by
  unfold bigintAbs
  split_ifs with h <;> omega

/-- The two slices `strVal.slice(0, -scale)` and `strVal.slice(-scale)` of a
padded digit string recover its integer and fractional parts. -/
theorem jsSlice_concat (ip fp : List Char) (hipne : ip ≠ []) (hfpne : fp ≠ []) :
    jsSliceTo (ip ++ fp) (-(fp.length : Int)) = ip ∧
      jsSliceFrom (ip ++ fp) (-(fp.length : Int)) = fp := by
  have hfp1 : 0 < fp.length := List.length_pos.mpr hfpne
  have hneg : (-(fp.length : Int)) < 0 := by omega
  have hlen : (((ip ++ fp).length : Nat) : Int) = (ip.length : Int) + (fp.length : Int) := by
    simp [List.length_append]
  have h2 : (ip.length : Int) + (fp.length : Int) + -(fp.length : Int) = (ip.length : Int) := by
    ring
  have h3 : max ((ip.length : Int)) 0 = (ip.length : Int) := by omega
  constructor
  · simp only [jsSliceTo]
    rw [if_pos hneg, hlen, h2, h3, Int.toNat_natCast, List.take_left]
  · simp only [jsSliceFrom]
    rw [if_pos hneg, hlen, h2, h3, Int.toNat_natCast, List.drop_left]

/-- Padding the rendered value of a digit string to one more than the
string's length prepends exactly one zero: the numeric value forgets the
leading zeros, and the pad restores them. -/
theorem padStart_digits (fp : List Char) (hfpd : fp.all isDigit = true) (hfpne : fp ≠ []) :
    padStartZeros (natDigits (digitsToNat fp)) ((fp.length : Int) + 1) = '0' :: fp := by
  have hfp1 : 0 < fp.length := List.length_pos.mpr hfpne
  have hsplit : fp.takeWhile (· == '0') ++ fp.dropWhile (· == '0') = fp :=
    List.takeWhile_append_dropWhile _ _
  have htrep : fp.takeWhile (· == '0')
      = List.replicate (fp.takeWhile (· == '0')).length '0' := takeWhile_zeros_replicate fp
  have hlen : (fp.takeWhile (· == '0')).length + (fp.dropWhile (· == '0')).length
      = fp.length := by
    conv_rhs => rw [← hsplit]
    rw [List.length_append]
  have hvfp : digitsToNat fp = digitsToNat (fp.dropWhile (· == '0')) := by
    conv_lhs => rw [← hsplit]
    rw [htrep]
    exact digitsToNat_replicate_zero _ _
  by_cases hm0 : fp.dropWhile (· == '0') = []
  · have hd0 : (fp.dropWhile (· == '0')).length = 0 := by rw [hm0]; rfl
    have hk : (fp.takeWhile (· == '0')).length = fp.length := by omega
    have hfpz : fp = List.replicate fp.length '0' := by
      conv_lhs => rw [← hsplit]
      rw [hm0, List.append_nil, htrep, hk]
    have hv0 : digitsToNat fp = 0 := by
      rw [hvfp, hm0]
      rfl
    rw [hv0]
    have hn0 : natDigits 0 = ['0'] := rfl
    rw [hn0]
    unfold padStartZeros
    rw [if_pos (show (((['0'] : List Char).length : Nat) : Int) < (fp.length : Int) + 1 by
      simp only [List.length_cons, List.length_nil]; omega)]
    have hnum : (((fp.length : Int) + 1) - (((['0'] : List Char).length : Nat) : Int)).toNat
        = fp.length := by
      simp only [List.length_cons, List.length_nil]
      omega
    rw [hnum, ← List.replicate_succ', List.replicate_succ, ← hfpz]
  · have hmd : (fp.dropWhile (· == '0')).all isDigit = true := by
      have hall : (fp.takeWhile (· == '0') ++ fp.dropWhile (· == '0')).all isDigit = true := by
        rw [hsplit]
        exact hfpd
      simp only [List.all_append, Bool.and_eq_true] at hall
      exact hall.2
    have hnat : natDigits (digitsToNat fp) = fp.dropWhile (· == '0') := by
      rw [hvfp]
      exact natDigits_inv _ hmd hm0 (dropWhile_zeros_head fp)
    rw [hnat]
    have hmlen : (fp.dropWhile (· == '0')).length ≤ fp.length := by omega
    unfold padStartZeros
    rw [if_pos (show (((fp.dropWhile (· == '0')).length : Nat) : Int) < (fp.length : Int) + 1 by
      omega)]
    have hnum2 : (((fp.length : Int) + 1) - (((fp.dropWhile (· == '0')).length : Nat) : Int)).toNat
        = (fp.takeWhile (· == '0')).length + 1 := by omega
    rw [hnum2, List.replicate_succ, List.cons_append, ← htrep, hsplit]

/-- The padded digit string `toString` computes for the value denoted by a
canonical integer-part/fractional-part pair is exactly their concatenation. -/
theorem padStart_canonical (ip fp : List Char) (hipd : ip.all isDigit = true)
    (hfpd : fp.all isDigit = true) (hipne : ip ≠ []) (hfpne : fp ≠ [])
    (hlead : ip.head? = some '0' → ip = ['0']) :
    padStartZeros (natDigits (digitsToNat (ip ++ fp))) ((fp.length : Int) + 1) = ip ++ fp := by
  by_cases hip0 : ip = ['0']
  · subst hip0
    have hv : digitsToNat (['0'] ++ fp) = digitsToNat fp := by
      simpa using digitsToNat_replicate_zero 1 fp
    rw [hv]
    simpa using padStart_digits fp hfpd hfpne
  · have hh : (ip ++ fp).head? ≠ some '0' := by
      cases ip with
      | nil => exact absurd rfl hipne
      | cons c r =>
        intro hcon
        have hc : c = '0' := by simpa using hcon
        exact hip0 (hlead (by simp [hc]))
    have hd : (ip ++ fp).all isDigit = true := by
      rw [List.all_append, hipd, hfpd]
      rfl
    have hne : ip ++ fp ≠ [] := by
      cases ip with
      | nil => exact absurd rfl hipne
      | cons c r => simp
    rw [natDigits_inv _ hd hne hh]
    have hiplen : 0 < ip.length := List.length_pos.mpr hipne
    unfold padStartZeros
    rw [if_neg (show ¬ ((((ip ++ fp).length : Nat) : Int) < (fp.length : Int) + 1) by
      rw [List.length_append]; omega)]

/-- Unfolding of `toDecimalNumber` along a known split of its input. -/
theorem toDecimalNumber_eq_of_split (s : String) (a b : List Char)
    (hs : splitDot s.toList = [a, b]) :
    toDecimalNumber s
      = (jsBigInt (a ++ b)).map fun v => { val := v, scale := (b.length : Int) } := by
  unfold toDecimalNumber
  rw [hs]

/-- Rendering the parse of a canonical unsigned dotted text reproduces the
text. -/
theorem toString_canonical_pos (ip fp : List Char) (hipd : ip.all isDigit = true)
    (hfpd : fp.all isDigit = true) (hipne : ip ≠ []) (hfpne : fp ≠ [])
    (hlead : ip.head? = some '0' → ip = ['0']) :
    DecimalNumber.toString { val := ((digitsToNat (ip ++ fp) : Nat) : Int), scale := (fp.length : Int) }
      = String.mk (ip ++ '.' :: fp) := by
  simp only [DecimalNumber.toString]
  rw [bigintAbs_natCast, Int.toNat_natCast]
  rw [padStart_canonical ip fp hipd hfpd hipne hfpne hlead]
  rw [(jsSlice_concat ip fp hipne hfpne).1, (jsSlice_concat ip fp hipne hfpne).2]
  rw [if_neg hipne]
  rw [if_neg (show ¬ (((digitsToNat (ip ++ fp) : Nat) : Int) < 0) by omega)]

/-- Rendering the parse of a canonical negative dotted text reproduces the
text, sign included. -/
theorem toString_canonical_neg (ip fp : List Char) (hipd : ip.all isDigit = true)
    (hfpd : fp.all isDigit = true) (hipne : ip ≠ []) (hfpne : fp ≠ [])
    (hlead : ip.head? = some '0' → ip = ['0'])
    (hpos : 0 < digitsToNat (ip ++ fp)) :
    DecimalNumber.toString
        { val := -((digitsToNat (ip ++ fp) : Nat) : Int), scale := (fp.length : Int) }
      = String.mk ('-' :: (ip ++ '.' :: fp)) := by
  simp only [DecimalNumber.toString]
  rw [bigintAbs_neg_natCast, Int.toNat_natCast]
  rw [padStart_canonical ip fp hipd hfpd hipne hfpne hlead]
  rw [(jsSlice_concat ip fp hipne hfpne).1, (jsSlice_concat ip fp hipne hfpne).2]
  rw [if_neg hipne]
  rw [if_pos (show (-((digitsToNat (ip ++ fp) : Nat) : Int)) < 0 by omega)]

/-! ## Claims -/

/-- Claim C1, counterexample: the claim says `toDecimalNumber "123"` succeeds
and returns unscaled value `123` at scale `0`; the source throws (`split`
yields one piece, not two). -/
theorem toDecimalNumber_123_not_accepted :
    toDecimalNumber "123" ≠ some (decimalNumberNew 123 0) := by decide

/-- Claim C1, amended: `toDecimalNumber` fails (throws) on every input string
containing no decimal point; integer-only input is rejected, not accepted. -/
theorem toDecimalNumber_no_dot_none (s : String) (h : '.' ∉ s.toList) :
    toDecimalNumber s = none := by
  have h2 : ∀ c ∈ s.data, c ≠ '.' := fun c hc he => h (he ▸ hc)
  simp [toDecimalNumber, splitDot_no_dot _ h2]

/-- Witness for the amended claim C1 at the concrete input `"123"`. -/
theorem toDecimalNumber_no_dot_none_witness :
    '.' ∉ ("123" : String).toList ∧ toDecimalNumber "123" = none :=
  ⟨by decide, toDecimalNumber_no_dot_none "123" (by decide)⟩

/-- Claim C2 (code bug), evaluation at the failing input: the value
`(123, 0)` denotes the integer `123` and both the claim and the repository's
own test expect the text `"123"`, but the source's `toString` produces
`"0.123"` (`slice(0, -0)` is the empty slice, so the whole digit string lands
in the fractional part). -/
theorem toString_scale_zero_eval :
    DecimalNumber.toString (decimalNumberNew 123 0) = "0.123" := by decide

/-- Claim C3: multiplication adds scales and addition takes the maximum
scale, for all operands. -/
theorem decimal_scale_composition (a b : DecimalNumber) :
    (decimalMultiply a b).scale = a.scale + b.scale ∧
    (decimalAdd a b).scale = max a.scale b.scale := by
  refine ⟨rfl, ?_⟩
  rw [decimalAdd_eq]

/-- Claim C4: `decimalAdd` and `decimalMultiply` are commutative up to
structural equality of the resulting value/scale pairs. -/
theorem decimal_add_mul_comm (a b : DecimalNumber) :
    decimalAdd a b = decimalAdd b a ∧ decimalMultiply a b = decimalMultiply b a := by
  constructor
  · rw [decimalAdd_eq, decimalAdd_eq]
    have h : max b.scale a.scale = max a.scale b.scale := by omega
    rw [h, add_comm]
  · simp [decimalMultiply, DecimalNumber.mk.injEq, mul_comm, add_comm]

/-- Claim C5: subtracting `b` from `a + b` gives back a value equal to `a`
(same rational after aligning scales). -/
theorem decimal_subtract_add_inverse (a b : DecimalNumber) :
    valueEq (decimalSubtract (decimalAdd a b) b) a := by
  rw [decimalAdd_eq, decimalSubtract_eq]
  simp only [valueEq]
  have h1 : max (max a.scale b.scale) b.scale = max a.scale b.scale := by omega
  have h2 : max (max a.scale b.scale) a.scale = max a.scale b.scale := by omega
  rw [h1, h2]
  simp [Int.sub_self]

/-- Claim C7, counterexample: the claim says the product of the parses of
`"12.34"` and `"5.678"` has unscaled value `70067252`; it is `7006652`. -/
theorem decimalMultiply_spec_example_false :
    ((toDecimalNumber "12.34").bind fun a =>
        (toDecimalNumber "5.678").map fun b => decimalMultiply a b)
      ≠ some (decimalNumberNew 70067252 5) := by decide

/-- Claim C7, amended: multiplying the parses of `"12.34"` and `"5.678"`
yields unscaled value `7006652` at scale `5`, formatting as `"70.06652"`. -/
theorem decimalMultiply_example_eval :
    toDecimalNumber "12.34" = some (decimalNumberNew 1234 2) ∧
    toDecimalNumber "5.678" = some (decimalNumberNew 5678 3) ∧
    decimalMultiply (decimalNumberNew 1234 2) (decimalNumberNew 5678 3)
      = decimalNumberNew 7006652 5 ∧
    DecimalNumber.toString (decimalNumberNew 7006652 5) = "70.06652" := by decide

/-- Claim C8, counterexample: the claim says the empty string parses to the
value `(0, 0)`; the source throws on it. -/
theorem toDecimalNumber_empty_not_zero :
    toDecimalNumber "" ≠ some (decimalNumberNew 0 0) := by decide

/-- Claim C8, amended: parsing the empty string fails (throws); the empty
string is not an accepted degenerate input. -/
theorem toDecimalNumber_empty_none : toDecimalNumber "" = none := by decide

/-- Claim C9, counterexample: the claim says direct construction fails with
`InvalidScale` whenever the supplied scale is negative; the source constructor
performs no check, and construction with scale `-1` succeeds, yielding a
`DecimalNumber` whose scale is negative. -/
theorem decimalNumberNew_negative_scale_accepted :
    decimalNumberNew 1 (-1) = { val := 1, scale := -1 } ∧
      (decimalNumberNew 1 (-1)).scale < 0 := by decide

/-- Claim C9, amended: direct construction never fails; the constructor
stores the supplied unscaled value and scale unchecked (negative scales
included).  No `InvalidScale` or `InvalidMagnitude` check exists in the
source; the unscaled value is a `bigint`, so a non-integral value cannot even
be supplied. -/
theorem decimalNumberNew_unchecked (v s : Int) :
    (decimalNumberNew v s).val = v ∧ (decimalNumberNew v s).scale = s :=
  ⟨rfl, rfl⟩

/-- Claim C10: swapping the operands of `decimalSubtract` keeps the result
scale (the maximum of the operand scales) and negates the unscaled value. -/
theorem decimal_subtract_antisymmetry (a b : DecimalNumber) :
    (decimalSubtract a b).scale = max a.scale b.scale ∧
    (decimalSubtract b a).scale = max a.scale b.scale ∧
    (decimalSubtract a b).val = -(decimalSubtract b a).val := by
  have h : max b.scale a.scale = max a.scale b.scale := by omega
  rw [decimalSubtract_eq, decimalSubtract_eq, h]
  refine ⟨rfl, rfl, ?_⟩
  ring

/-- Claim C6, counterexample: `"123"` is a valid decimal text in canonical
form under the spec (its formatter renders scale-0 values without a decimal
point, with no sign and no superfluous zeros), yet parsing it throws, so
formatting the parse cannot return the text. -/
theorem roundtrip_integer_text_fails :
    (toDecimalNumber "123").map DecimalNumber.toString ≠ some "123" := by decide

/-- Claim C6, amended: the round-trip holds for every canonical text that
contains a decimal point: for a text `[sign]intPart.fracPart` with nonempty
all-digit parts, no superfluous leading zero, and a sign only on a negative
value, parsing succeeds and formatting the parse returns the text itself.
Canonical texts without a decimal point (integer texts) are rejected by the
parser. -/
theorem roundtrip_canonical_dot_text (neg : Bool) (ip fp : List Char)
    (h : canonicalParts neg ip fp) :
    (toDecimalNumber (dotText neg ip fp)).map DecimalNumber.toString
      = some (dotText neg ip fp) := by
  obtain ⟨hipne, hfpne, hipd, hfpd, hlead, hsign⟩ := h
  have hipdot : ∀ c ∈ ip, c ≠ '.' := fun c hc =>
    digit_ne_dot c (List.all_eq_true.mp hipd c hc)
  have hfpdot : ∀ c ∈ fp, c ≠ '.' := fun c hc =>
    digit_ne_dot c (List.all_eq_true.mp hfpd c hc)
  have hlod : (ip ++ fp).all isDigit = true := by
    rw [List.all_append, hipd, hfpd]
    rfl
  cases neg with
  | false =>
    have hsplit : splitDot (dotText false ip fp).toList = [ip, fp] := by
      show splitDot (ip ++ '.' :: fp) = [ip, fp]
      exact splitDot_mid ip fp hipdot hfpdot
    rw [toDecimalNumber_eq_of_split _ _ _ hsplit]
    have hbig : jsBigInt (ip ++ fp) = some ((digitsToNat (ip ++ fp) : Int)) := by
      cases ip with
      | nil => exact absurd rfl hipne
      | cons c0 ip2 =>
        have hc0d : isDigit c0 = true := List.all_eq_true.mp hipd c0 (List.mem_cons_self _ _)
        have hall : (c0 :: (ip2 ++ fp)).all isDigit = true := by
          rw [← List.cons_append]
          exact hlod
        rw [List.cons_append]
        simp only [jsBigInt]
        rw [if_neg (digit_ne_dash c0 hc0d), if_pos hall]
    rw [hbig, Option.map_some', Option.map_some']
    rw [toString_canonical_pos ip fp hipd hfpd hipne hfpne hlead]
    rfl
  | true =>
    have hpos : 0 < digitsToNat (ip ++ fp) := digitsToNat_any_pos _ hlod (hsign rfl)
    have hsplit : splitDot (dotText true ip fp).toList = ['-' :: ip, fp] := by
      show splitDot ('-' :: (ip ++ '.' :: fp)) = ['-' :: ip, fp]
      have h1 : splitDot (ip ++ '.' :: fp) = [ip, fp] := splitDot_mid ip fp hipdot hfpdot
      simp [splitDot, h1]
    rw [toDecimalNumber_eq_of_split _ _ _ hsplit]
    have hbig : jsBigInt (('-' :: ip) ++ fp) = some (-(digitsToNat (ip ++ fp) : Int)) := by
      rw [List.cons_append]
      simp only [jsBigInt]
      rw [if_pos trivial]
      rw [if_pos ⟨by
        cases ip with
        | nil => exact absurd rfl hipne
        | cons c r => simp, hlod⟩]
    rw [hbig, Option.map_some', Option.map_some']
    rw [toString_canonical_neg ip fp hipd hfpd hipne hfpne hlead hpos]
    rfl

/-- Witness for the amended claim C6 at the concrete canonical text
`"-12.340"`. -/
theorem roundtrip_canonical_dot_text_witness :
    canonicalParts true ['1', '2'] ['3', '4', '0'] ∧
      (toDecimalNumber (dotText true ['1', '2'] ['3', '4', '0'])).map DecimalNumber.toString
        = some (dotText true ['1', '2'] ['3', '4', '0']) :=
  ⟨by decide, roundtrip_canonical_dot_text true ['1', '2'] ['3', '4', '0'] (by decide)⟩

end DecimalX
